import Mathlib

/-!
Verification of the neural-network training engine (ets-rtc-group7).

Shallow embedding of the Rust sources `src/nnawaw/src/main.rs` (dataset
loader, math primitives, training loop) and
`src/rust-nn-qt/src/frontend_new.rs` (shared `TrainingData` state and its
mutators), together with theorems settling the frozen claims C1..C10.

Modelling conventions:
* `f64` values are modelled as real numbers `ℝ`; machine floats have no
  NaN/Inf counterpart here, so float "finiteness" claims are rendered as
  explicit real bounds.
* `ndarray::Array2<f64>` matrices are modelled as functions
  `Fin rows → Fin cols → ℝ`; 1-dimensional rows (biases, column sums) as
  `Fin cols → ℝ`.
* The CSV file is modelled as `Option (List String)`: `none` is a missing
  path, `some lines` are the raw text lines, and a record is a line split
  at the detected delimiter.  The csv crate's default strict field-count
  check (records must have the header's field count, else the iterator
  errors and `result?` aborts the load) is modelled; its quoting and
  blank-line handling are not.  Field parsing (`str::parse::<f64>` from
  the Rust standard library, external to this repository) is a parameter
  `parse : String → Option α`, and `str::trim` is modelled structurally.
* The concurrent observer (UI) is modelled by a function
  `stopReq : ℕ → Bool` giving the value of the shared `should_stop` flag
  that the worker reads at the top of each epoch; the observer's write is
  reflected by assigning that value to the shared state at the read point.
* `thread::sleep`, `println!` and the actual PNG plotting are I/O without
  data content; the call to `plot_loss` is recorded as an emitted `Event`.
-/

namespace NN

/- ------------------------------------------------------------------ -/
/- Dataset loader (`load_data`, main.rs lines 38-92)                  -/
/- ------------------------------------------------------------------ -/

/-- Errors surfaced by `load_data` (main.rs returns boxed error strings;
we name the distinct failure cases).  `unequalLengths` is the csv
crate's `UnequalLengths` error: the reader built at main.rs lines 54-57
keeps the crate's default strict (non-flexible) mode, so a record whose
field count differs from the header's makes the record iterator yield an
error, which `let record = result?;` (main.rs line 63) propagates,
aborting the whole load. -/
inductive LoadError where
  | notFound
  | unequalLengths
  | emptyDataset
  | inconsistentShape
deriving DecidableEq

/-- Model of Rust `str::trim` (standard library, external to this
repository): strip leading and trailing whitespace.  Written over the
character list so that concrete inputs evaluate. -/
def trimF (s : String) : String :=
  ⟨((s.toList.dropWhile Char.isWhitespace).reverse.dropWhile
      Char.isWhitespace).reverse⟩

/-- One record as the csv reader yields it at our line granularity: the
line split at the single-byte delimiter (crate quoting/escaping is not
modelled; the inputs here have none). -/
def splitRecord (delim : Char) (line : String) : List String :=
  (line.toList.splitOn delim).map (fun cs => ⟨cs⟩)

/-- Rust `record.iter().map(|s| s.trim().parse()).collect::<Result<Vec<f64>, _>>()`
(main.rs line 64): trim and parse every field, short-circuiting to `none`
on the first failure. -/
def collectParsed {α : Type} (parse : String → Option α) :
    List String → Option (List α)
  | [] => some []
  | s :: rest =>
      match parse (trimF s), collectParsed parse rest with
      | some v, some vs => some (v :: vs)
      | _, _ => none

/-- The fate of a single well-width data line in the loader loop:
`some (x, y)` when every trimmed field parses and the record is nonempty
(`x` the feature prefix, `y` the last value), `none` when the row is
dropped. -/
def parsedRow {α : Type} (parse : String → Option α) (delim : Char)
    (line : String) : Option (List α × α) :=
  match collectParsed parse (splitRecord delim line) with
  | some vals =>
      match vals.getLast? with
      | some y => some (vals.dropLast, y)
      | none => none
  | none => none

/-- The delimiter auto-detection of `load_data` (main.rs lines 44-52):
the byte `b';'` if the first line contains a semicolon, else `b','`. -/
def delimOf (lines : List String) : Char :=
  if (lines.headD "").toList.contains ';' then ';' else ','

/-- The record loop of `load_data` (main.rs lines 62-72).  `w` is the
header's field count: the csv crate's strict default rejects any record
with a different field count, and `result?` (line 63) aborts the load
with that error; otherwise each record is trimmed and parsed, rows with
a parse failure are skipped, and the last value of a surviving row is
its label. -/
def parseRows {α : Type} (parse : String → Option α) (delim : Char)
    (w : ℕ) : List String → Except LoadError (List (List α) × List α)
  | [] => .ok ([], [])
  | line :: rest =>
      let record := splitRecord delim line
      if record.length ≠ w then .error .unequalLengths
      else
        match collectParsed parse record with
        | some vals =>
            match vals.getLast? with
            | some y =>
                match parseRows parse delim w rest with
                | .ok acc => .ok (vals.dropLast :: acc.1, y :: acc.2)
                | .error e => .error e
            | none => parseRows parse delim w rest
        | none => parseRows parse delim w rest

/-- The header's field count: the first record read (with
`has_headers(true)` the header) fixes the expected field count of the
strict csv reader. -/
def headerWidth (lines : List String) : ℕ :=
  (splitRecord (delimOf lines) (lines.headD "")).length

/-- Rust `load_data` (main.rs lines 38-92).  `none` models a path that
does not exist.  The delimiter is detected from the first line, the
first line is the header and is skipped, a record of the wrong field
count aborts the load with the csv error, and the surviving rows must be
nonempty in number and of equal feature width. -/
def load_data {α : Type} (parse : String → Option α)
    (file : Option (List String)) :
    Except LoadError (List (List α) × List α) :=
  match file with
  | none => .error .notFound
  | some lines =>
      match parseRows parse (delimOf lines) (headerWidth lines)
          (lines.drop 1) with
      | .error e => .error e
      | .ok acc =>
          let features := acc.1
          let labels := acc.2
          if features.isEmpty then .error .emptyDataset
          else
            let feature_len := (features.headD []).length
            if features.any (fun frow => frow.length ≠ feature_len) then
              .error .inconsistentShape
            else .ok (features, labels)

/- ------------------------------------------------------------------ -/
/- Shared state (`TrainingData`, frontend_new.rs lines 6-53)          -/
/- ------------------------------------------------------------------ -/

/-- Rust `struct TrainingData` (frontend_new.rs lines 6-19). -/
structure TrainingData where
  epoch : ℕ
  loss : ℝ
  accuracy : ℝ
  losses : List ℝ
  accuracies : List ℝ
  training_in_progress : Bool
  completed : Bool
  should_stop : Bool
  show_stop_confirm : Bool
  dataset_path : String
  available_datasets : List String

noncomputable section

/-- Rust `TrainingData::new` (frontend_new.rs lines 22-40). -/
def TrainingData.new : TrainingData where
  epoch := 0
  loss := 0
  accuracy := 0
  training_in_progress := false
  completed := false
  should_stop := false
  show_stop_confirm := false
  losses := []
  accuracies := []
  dataset_path := "csv/pollution_dataset5k.csv"
  available_datasets :=
    ["pollution_dataset5k.csv", "pollution_dataset2k.csv",
     "pollution_dataset1k.csv"]

/-- Rust `TrainingData::reset` (frontend_new.rs lines 42-52). -/
def TrainingData.reset (d : TrainingData) : TrainingData :=
  { d with
    epoch := 0
    loss := 0
    accuracy := 0
    training_in_progress := true
    completed := false
    should_stop := false
    show_stop_confirm := false
    losses := []
    accuracies := [] }

/-- Rust `NeuralNetworkApp::estimate_accuracy` (frontend_new.rs lines 154-161). -/
def estimate_accuracy (loss : ℝ) : ℝ :=
  let max_loss : ℝ := 0.7
  let accuracy := (1 - min (loss / max_loss) 1) * 100
  max accuracy 0

/-- Rust `NeuralNetworkApp::update_progress` (frontend_new.rs lines 100-117).
The Rust field `epoch: u32` receives `epoch as u32`, modelled by reduction
modulo `2 ^ 32`. -/
def update_progress (d : TrainingData) (epoch : ℕ) (loss accuracy : ℝ) :
    TrainingData :=
  let acc := if accuracy > 0 then accuracy else estimate_accuracy loss
  { d with
    epoch := epoch % 2 ^ 32
    loss := loss
    accuracy := acc
    losses := d.losses ++ [loss]
    accuracies := d.accuracies ++ [acc] }

/-- Rust `NeuralNetworkApp::training_completed` (frontend_new.rs lines 119-125). -/
def training_completed (d : TrainingData) (accuracy : ℝ) : TrainingData :=
  { d with
    completed := true
    training_in_progress := false
    should_stop := false
    accuracy := accuracy }

/-- The train-button handler (frontend_new.rs lines 581-598): when no
training is in progress, reset the data only if the previous run
completed, then mark a run as started; the returned flag records whether
the training callback was triggered. -/
def train_click (d : TrainingData) : TrainingData × Bool :=
  if d.training_in_progress then (d, false)
  else
    let d1 := if d.completed then d.reset else d
    ({ d1 with training_in_progress := true, completed := false, epoch := 0 },
     true)

/- ------------------------------------------------------------------ -/
/- Math primitives (main.rs lines 16-36)                              -/
/- ------------------------------------------------------------------ -/

/-- Rust `const LOG_INTERVAL: usize = 100` (main.rs line 16). -/
def LOG_INTERVAL : ℕ := 100

/-- The scalar closure of `relu`: `v.max(0.0)`. -/
def reluS (v : ℝ) : ℝ := max v 0

/-- Rust `relu` (main.rs lines 18-20), elementwise on a matrix. -/
def relu {n m : ℕ} (x : Fin n → Fin m → ℝ) : Fin n → Fin m → ℝ :=
  fun i j => reluS (x i j)

/-- The scalar closure of `relu_deriv`: `if v > 0.0 { 1.0 } else { 0.0 }`. -/
def reluDerivS (v : ℝ) : ℝ := if v > 0 then 1 else 0

/-- Rust `relu_deriv` (main.rs lines 22-24), elementwise on a matrix. -/
def relu_deriv {n m : ℕ} (x : Fin n → Fin m → ℝ) : Fin n → Fin m → ℝ :=
  fun i j => reluDerivS (x i j)

/-- The scalar closure of `sigmoid`: `1.0 / (1.0 + (-v).exp())`. -/
def sigmoidS (v : ℝ) : ℝ := 1 / (1 + Real.exp (-v))

/-- Rust `sigmoid` (main.rs lines 26-28), elementwise on a matrix. -/
def sigmoid {n m : ℕ} (x : Fin n → Fin m → ℝ) : Fin n → Fin m → ℝ :=
  fun i j => sigmoidS (x i j)

/-- The clipping closure of `binary_cross_entropy`:
`v.max(eps).min(1.0 - eps)` with `eps = 1e-7`. -/
def clip (v : ℝ) : ℝ := min (max v 1e-7) (1 - 1e-7)

/-- Rust `binary_cross_entropy` (main.rs lines 30-36): clip the predictions,
then return the negated mean of
`y_true * ln(p) + (1 - y_true) * ln(1 - p)` over all `n * m` elements. -/
def binary_cross_entropy {n m : ℕ} (y_pred y_true : Fin n → Fin m → ℝ) : ℝ :=
  -((∑ i, ∑ j, (y_true i j * Real.log (clip (y_pred i j)) +
      (1 - y_true i j) * Real.log (1 - clip (y_pred i j)))) / (n * m))

/- ------------------------------------------------------------------ -/
/- Linear-algebra helpers (ndarray operations used by the engine)     -/
/- ------------------------------------------------------------------ -/

/-- Rust `A.dot(&B)` for matrices. -/
def matMul {n k m : ℕ} (A : Fin n → Fin k → ℝ) (B : Fin k → Fin m → ℝ) :
    Fin n → Fin m → ℝ :=
  fun i j => ∑ t, A i t * B t j

/-- Rust `A.t()`. -/
def matT {n m : ℕ} (A : Fin n → Fin m → ℝ) : Fin m → Fin n → ℝ :=
  fun i j => A j i

/-- ndarray broadcast of adding a `1 × m` row to an `n × m` matrix. -/
def addRow {n m : ℕ} (A : Fin n → Fin m → ℝ) (b : Fin m → ℝ) :
    Fin n → Fin m → ℝ :=
  fun i j => A i j + b j

/-- Rust `M.sum_axis(Axis(0))`: column sums. -/
def colSum {n m : ℕ} (A : Fin n → Fin m → ℝ) : Fin m → ℝ :=
  fun j => ∑ i, A i j

/-- ndarray elementwise product `A * B`. -/
def hadamard {n m : ℕ} (A B : Fin n → Fin m → ℝ) : Fin n → Fin m → ℝ :=
  fun i j => A i j * B i j

/- ------------------------------------------------------------------ -/
/- Training engine (`train_neural_network`, main.rs lines 119-259)    -/
/- ------------------------------------------------------------------ -/

/-- The network parameters (`w1`, `b1`, `w2`, `b2`, main.rs lines 141-144). -/
structure Params (f h : ℕ) where
  w1 : Fin f → Fin h → ℝ
  b1 : Fin h → ℝ
  w2 : Fin h → Fin 1 → ℝ
  b2 : Fin 1 → ℝ

/-- The engine-local mutable state of the loop: the parameters, the
`losses` vector and `final_pred`. -/
structure EngineState (n f h : ℕ) where
  p : Params f h
  losses : List ℝ
  final_pred : Fin n → Fin 1 → ℝ

/-- The run context: configuration (`epochs`, `learning_rate`; the hidden
size is the type index `h`), the loaded dataset, and the stop signal as
read at the top of each epoch. -/
structure RunCtx (n f h : ℕ) where
  epochs : ℕ
  learning_rate : ℝ
  x : Fin n → Fin f → ℝ
  y_true : Fin n → Fin 1 → ℝ
  stopReq : ℕ → Bool

/-- The forward pass `z1 = x·w1 + b1; a1 = relu z1; z2 = a1·w2 + b2;
y_pred = sigmoid z2` (main.rs lines 197-200, repeated at 165-168). -/
def forward {n f h : ℕ} (x : Fin n → Fin f → ℝ) (p : Params f h) :
    Fin n → Fin 1 → ℝ :=
  let z1 := addRow (matMul x p.w1) p.b1
  let a1 := relu z1
  let z2 := addRow (matMul a1 p.w2) p.b2
  sigmoid z2

/-- The accuracy computation repeated at main.rs lines 170-176, 223-229
and 246-253: threshold the predictions at `0.5`, count entries matching
the labels within `1e-6`, and scale to a percentage. -/
def accuracyOf {n : ℕ} (y_pred y_true : Fin n → Fin 1 → ℝ) : ℝ :=
  let predictions := fun (i : Fin n) (j : Fin 1) =>
    if y_pred i j ≥ 0.5 then (1 : ℝ) else 0
  let correct := (Finset.univ.filter
    (fun i : Fin n => |predictions i 0 - y_true i 0| < 1e-6)).card
  (correct : ℝ) / n * 100

/-- One epoch of numeric work (main.rs lines 197-219): forward pass,
loss push, backward pass, gradient-descent update, and `final_pred`. -/
def epochStep {n f h : ℕ} (c : RunCtx n f h) (st : EngineState n f h) :
    EngineState n f h :=
  let z1 := addRow (matMul c.x st.p.w1) st.p.b1
  let a1 := relu z1
  let z2 := addRow (matMul a1 st.p.w2) st.p.b2
  let y_pred := sigmoid z2
  let loss := binary_cross_entropy y_pred c.y_true
  let dz2 := fun i j => y_pred i j - c.y_true i j
  let dw2 := fun i j => matMul (matT a1) dz2 i j / n
  let db2 := fun j => colSum dz2 j / n
  let da1 := matMul dz2 (matT st.p.w2)
  let dz1 := hadamard da1 (relu_deriv z1)
  let dw1 := fun i j => matMul (matT c.x) dz1 i j / n
  let db1 := fun j => colSum dz1 j / n
  { p :=
      { w1 := fun i j => st.p.w1 i j - dw1 i j * c.learning_rate
        b1 := fun j => st.p.b1 j - db1 j * c.learning_rate
        w2 := fun i j => st.p.w2 i j - dw2 i j * c.learning_rate
        b2 := fun j => st.p.b2 j - db2 j * c.learning_rate }
    losses := st.losses ++ [loss]
    final_pred := y_pred }

/-- The loss computed in the epoch executed from state `st`. -/
def lossOf {n f h : ℕ} (c : RunCtx n f h) (st : EngineState n f h) : ℝ :=
  binary_cross_entropy (forward c.x st.p) c.y_true

/-- The true accuracy of the predictions of state `st`. -/
def accOf {n f h : ℕ} (c : RunCtx n f h) (st : EngineState n f h) : ℝ :=
  accuracyOf (forward c.x st.p) c.y_true

/-- The accuracy argument passed to `update_progress` in epoch `epoch`
(main.rs lines 221-236): the true accuracy at epoch 0, every
`LOG_INTERVAL`-th epoch and the final epoch, and the sentinel `-1.0`
otherwise. -/
def accArg {n f h : ℕ} (c : RunCtx n f h) (epoch : ℕ)
    (st : EngineState n f h) : ℝ :=
  if epoch % LOG_INTERVAL = 0 ∨ epoch = c.epochs - 1 then accOf c st else -1

/-- Externally observable calls made by the engine: per-epoch
`update_progress`, the `training_completed` callback, and the
`plot_loss` artifact write. -/
inductive Event where
  | progress (epoch : ℕ) (loss accuracy : ℝ)
  | completedCb (accuracy : ℝ)
  | plot (losses : List ℝ) (epochs : ℕ)

/-- The outcome of a run: final shared state, emitted calls in order,
and the final engine-local state. -/
structure RunResult (n f h : ℕ) where
  data : TrainingData
  events : List Event
  st : EngineState n f h

/-- The epoch loop of `train_neural_network` (main.rs lines 150-258),
by recursion on the remaining fuel `r` (the epoch index is
`c.epochs - r` while `r ≥ 1`).  At the top of each iteration the value
`c.stopReq epoch` written by the observer is read from the shared state;
on stop after at least one epoch the engine recomputes predictions from
the current weights, fires `training_completed` and plots the collected
losses; on stop before any epoch it only clears the two run flags.
After fuel exhaustion (normal completion) it plots and fires
`training_completed` with the accuracy of `final_pred`. -/
def trainLoop {n f h : ℕ} (c : RunCtx n f h) :
    ℕ → EngineState n f h → TrainingData → List Event → RunResult n f h
  | 0, st, d, evs =>
      let accuracy := accuracyOf st.final_pred c.y_true
      { data := training_completed d accuracy
        events := evs ++ [Event.plot st.losses c.epochs,
                          Event.completedCb accuracy]
        st := st }
  | r + 1, st, d, evs =>
      let epoch := c.epochs - (r + 1)
      let d1 : TrainingData := { d with should_stop := c.stopReq epoch }
      if d1.should_stop then
        if 0 < epoch then
          let y_pred := forward c.x st.p
          let accuracy := accuracyOf y_pred c.y_true
          let d2 := training_completed d1 accuracy
          let evs2 := evs ++ [Event.completedCb accuracy]
          let evs3 := if st.losses.isEmpty then evs2
            else evs2 ++ [Event.plot st.losses c.epochs]
          { data := d2, events := evs3, st := st }
        else
          { data := { d1 with training_in_progress := false,
                              completed := false }
            events := evs, st := st }
      else
        let loss := lossOf c st
        let acc := accArg c epoch st
        trainLoop c r (epochStep c st) (update_progress d1 epoch loss acc)
          (evs ++ [Event.progress epoch loss acc])

/-- The initial engine state (main.rs lines 141-148): random weights
(taken as parameters `w1`, `w2`), zero biases, empty loss vector, zero
`final_pred`. -/
def initState {n f h : ℕ} (w1 : Fin f → Fin h → ℝ)
    (w2 : Fin h → Fin 1 → ℝ) : EngineState n f h :=
  { p := { w1 := w1, b1 := fun _ => 0, w2 := w2, b2 := fun _ => 0 }
    losses := []
    final_pred := fun _ _ => 0 }

/-- Rust `train_neural_network` (main.rs lines 119-259) for an already loaded
dataset, started on shared state `d`. -/
def train_neural_network {n f h : ℕ} (c : RunCtx n f h)
    (w1 : Fin f → Fin h → ℝ) (w2 : Fin h → Fin 1 → ℝ)
    (d : TrainingData) : RunResult n f h :=
  trainLoop c c.epochs (initState w1 w2) d []

/-- The shared state threaded through `j` consecutive non-stopped epochs
starting at epoch index `e` from engine state `st`: each epoch writes the
observer's (false) stop value and then applies `update_progress`. -/
def dataSteps {n f h : ℕ} (c : RunCtx n f h) :
    ℕ → ℕ → EngineState n f h → TrainingData → TrainingData
  | _, 0, _, d => d
  | e, j + 1, st, d =>
      dataSteps c (e + 1) j (epochStep c st)
        (update_progress { d with should_stop := c.stopReq e } e (lossOf c st)
          (accArg c e st))

/-- The `update_progress` events emitted by `j` consecutive non-stopped
epochs starting at epoch index `e` from engine state `st`. -/
def progressEvs {n f h : ℕ} (c : RunCtx n f h) :
    ℕ → ℕ → EngineState n f h → List Event
  | _, 0, _ => []
  | e, j + 1, st =>
      Event.progress e (lossOf c st) (accArg c e st) ::
        progressEvs c (e + 1) j (epochStep c st)

/-- Extracts the accuracy of a `completedCb` event. -/
def cbAcc : Event → Option ℝ
  | Event.completedCb a => some a
  | _ => none

/-- Extracts the accuracy argument of the `progress` event of epoch `e`. -/
def progAcc (e : ℕ) : Event → Option ℝ
  | Event.progress e1 _ a => if e1 = e then some a else none
  | _ => none

end

/- ================================================================== -/
/- Theorems                                                           -/
/- ================================================================== -/

/- Helper lemmas for the loader. -/

theorem collectParsed_none_of_mem {α : Type} (parse : String → Option α) :
    ∀ (l : List String) (x : String), x ∈ l → parse (trimF x) = none →
      collectParsed parse l = none := by
  intro l
  induction l with
  | nil => intro x hx; exact absurd hx (List.not_mem_nil x)
  | cons a as ih =>
      intro x hx hfx
      rcases List.mem_cons.mp hx with h | h
      · subst h
        simp [collectParsed, hfx]
      · cases hfa : parse (trimF a) with
        | none => simp [collectParsed, hfa]
        | some b => simp [collectParsed, hfa, ih x h hfx]

theorem collectParsed_length {α : Type} (parse : String → Option α) :
    ∀ (l : List String) (vals : List α),
      collectParsed parse l = some vals → vals.length = l.length := by
  intro l
  induction l with
  | nil =>
      intro vals hv
      simp only [collectParsed, Option.some.injEq] at hv
      subst hv
      rfl
  | cons s rest ih =>
      intro vals hv
      simp only [collectParsed] at hv
      cases hp : parse (trimF s) with
      | none => rw [hp] at hv; exact absurd hv (by simp)
      | some v =>
          cases hr : collectParsed parse rest with
          | none => rw [hp, hr] at hv; exact absurd hv (by simp)
          | some vs =>
              rw [hp, hr] at hv
              simp only [Option.some.injEq] at hv
              subst hv
              simp [ih vs hr]

theorem parseRows_error_unequal {α : Type} (parse : String → Option α)
    (delim : Char) (w : ℕ) :
    ∀ (lines : List String) (e : LoadError),
      parseRows parse delim w lines = .error e →
        e = LoadError.unequalLengths := by
  intro lines
  induction lines with
  | nil => intro e he; exact absurd he (by simp [parseRows])
  | cons line rest ih =>
      intro e he
      simp only [parseRows] at he
      split at he
      · simp only [Except.error.injEq] at he
        exact he.symm
      · split at he
        · split at he
          · split at he
            · exact absurd he (by simp)
            · rename_i e2 heq
              simp only [Except.error.injEq] at he
              exact he ▸ ih e2 heq
          · exact ih e he
        · exact ih e he

theorem parseRows_unequal_of_bad {α : Type} (parse : String → Option α)
    (delim : Char) (w : ℕ) :
    ∀ lines : List String,
      (∃ line ∈ lines, (splitRecord delim line).length ≠ w) →
      parseRows parse delim w lines = .error .unequalLengths := by
  intro lines
  induction lines with
  | nil =>
      intro hbad
      obtain ⟨line, hmem, -⟩ := hbad
      exact absurd hmem (List.not_mem_nil line)
  | cons line rest ih =>
      intro hbad
      simp only [parseRows]
      by_cases hw : (splitRecord delim line).length ≠ w
      · rw [if_pos hw]
      · rw [if_neg hw]
        have hrest : parseRows parse delim w rest =
            .error .unequalLengths := by
          apply ih
          obtain ⟨l2, hmem, hl2⟩ := hbad
          rcases List.mem_cons.mp hmem with h | h
          · exact absurd (h ▸ hl2) hw
          · exact ⟨l2, h, hl2⟩
        cases hc : collectParsed parse (splitRecord delim line) with
        | none => simpa [hc] using hrest
        | some vals =>
            cases hl : vals.getLast? with
            | none => simpa [hc, hl] using hrest
            | some y => simp [hc, hl, hrest]

theorem parseRows_ok_of_widths {α : Type} (parse : String → Option α)
    (delim : Char) (w : ℕ) :
    ∀ lines : List String,
      (∀ line ∈ lines, (splitRecord delim line).length = w) →
      parseRows parse delim w lines =
        .ok ((lines.filterMap (parsedRow parse delim)).map Prod.fst,
             (lines.filterMap (parsedRow parse delim)).map Prod.snd) := by
  intro lines
  induction lines with
  | nil => intro _; rfl
  | cons line rest ih =>
      intro hall
      have hrest := ih fun l2 hm => hall l2 (List.mem_cons_of_mem _ hm)
      simp only [parseRows]
      rw [if_neg (by simp [hall line (List.mem_cons_self line rest)])]
      cases hc : collectParsed parse (splitRecord delim line) with
      | none => simp [parsedRow, hc, hrest]
      | some vals =>
          cases hl : vals.getLast? with
          | none => simp [parsedRow, hc, hl, hrest]
          | some y => simp [parsedRow, hc, hl, hrest]

theorem parseRows_ok_widths {α : Type} (parse : String → Option α)
    (delim : Char) (w : ℕ) :
    ∀ (lines : List String) (acc : List (List α) × List α),
      parseRows parse delim w lines = .ok acc →
      ∀ frow ∈ acc.1, frow.length = w - 1 := by
  intro lines
  induction lines with
  | nil =>
      intro acc hacc frow hmem
      simp only [parseRows, Except.ok.injEq] at hacc
      rw [← hacc] at hmem
      exact absurd hmem (List.not_mem_nil frow)
  | cons line rest ih =>
      intro acc hacc frow hmem
      simp only [parseRows] at hacc
      split at hacc
      · exact absurd hacc (by simp)
      · rename_i hw
        split at hacc
        · rename_i vals hc
          split at hacc
          · rename_i y hl
            split at hacc
            · rename_i acc2 heq
              simp only [Except.ok.injEq] at hacc
              rw [← hacc] at hmem
              rcases List.mem_cons.mp hmem with hhd | htl
              · subst hhd
                have hvlen := collectParsed_length parse
                  (splitRecord delim line) vals hc
                have hdrop : vals.dropLast.length = vals.length - 1 :=
                  List.length_dropLast vals
                omega
              · exact ih acc2 heq frow htl
            · exact absurd hacc (by simp)
          · exact ih acc hacc frow hmem
        · exact ih acc hacc frow hmem

/-- C4 counterexample: a file whose two parseable data rows have
differing feature widths (1 and 2), for which the claim demands the
`InconsistentShape` failure; the program instead aborts with the csv
crate's strict field-count error (`UnequalLengths`, propagated by
`result?` at main.rs line 63), an error outside the claimed taxonomy. -/
theorem claim_c4_counterexample :
    load_data (fun _ => some (0 : ℕ)) (some ["h,h", "1,2", "1,2,3"]) =
      .error .unequalLengths ∧
    (Except.error LoadError.unequalLengths :
      Except LoadError (List (List ℕ) × List ℕ)) ≠
        .error .inconsistentShape ∧
    parsedRow (fun _ => some (0 : ℕ)) ',' "1,2" = some ([0], 0) ∧
    parsedRow (fun _ => some (0 : ℕ)) ',' "1,2,3" = some ([0, 0], 0) ∧
    ([0] : List ℕ).length ≠ ([0, 0] : List ℕ).length := by
  refine ⟨rfl, ?_, rfl, rfl, by decide⟩
  intro hcontra
  exact LoadError.noConfusion (Except.error.inj hcontra)

/-- C4 (amended): `load_data` fails with `notFound` exactly when the
path does not exist; on an existing file, any data record whose field
count differs from the header's aborts the load with the csv crate's
`UnequalLengths` error (exactly then), and the source's own
`InconsistentShape` check is dead code — that error is never returned,
since every surviving row has the header's width minus one; when all
records have the header's field count, the load fails with
`emptyDataset` exactly when zero rows survive parsing, and otherwise
returns the surviving features and labels. -/
theorem claim_c4_amended {α : Type} (parse : String → Option α) :
    (∀ file : Option (List String),
      (load_data parse file = Except.error LoadError.notFound ↔
        file = none)) ∧
    (∀ lines : List String,
      (load_data parse (some lines) =
          Except.error LoadError.unequalLengths ↔
        ∃ line ∈ lines.drop 1,
          (splitRecord (delimOf lines) line).length ≠ headerWidth lines)) ∧
    (∀ lines : List String,
      load_data parse (some lines) ≠
        Except.error LoadError.inconsistentShape) ∧
    (∀ lines : List String,
      (∀ line ∈ lines.drop 1,
        (splitRecord (delimOf lines) line).length = headerWidth lines) →
      ((load_data parse (some lines) =
          Except.error LoadError.emptyDataset ↔
        (lines.drop 1).filterMap (parsedRow parse (delimOf lines)) = []) ∧
       ((lines.drop 1).filterMap (parsedRow parse (delimOf lines)) ≠ [] →
        load_data parse (some lines) =
          Except.ok
            (((lines.drop 1).filterMap
                (parsedRow parse (delimOf lines))).map Prod.fst,
             ((lines.drop 1).filterMap
                (parsedRow parse (delimOf lines))).map Prod.snd)))) := by
  refine ⟨?_, ?_, ?_, ?_⟩
  · intro file
    cases file with
    | none => simp [load_data]
    | some lines =>
        constructor
        · intro hload
          cases hp : parseRows parse (delimOf lines) (headerWidth lines)
              (lines.drop 1) with
          | error e =>
              have he := parseRows_error_unequal parse (delimOf lines)
                (headerWidth lines) (lines.drop 1) e hp
              subst he
              simp only [load_data, hp] at hload
              exact absurd hload (by simp)
          | ok acc =>
              simp only [load_data, hp] at hload
              revert hload
              split_ifs <;> simp
        · intro hnone
          exact absurd hnone (by simp)
  · intro lines
    constructor
    · intro hload
      by_contra hno
      push_neg at hno
      have hok := parseRows_ok_of_widths parse (delimOf lines)
        (headerWidth lines) (lines.drop 1) hno
      simp only [load_data, hok] at hload
      revert hload
      split_ifs <;> simp
    · intro hbad
      have herr := parseRows_unequal_of_bad parse (delimOf lines)
        (headerWidth lines) (lines.drop 1) hbad
      simp only [load_data, herr]
  · intro lines
    cases hp : parseRows parse (delimOf lines) (headerWidth lines)
        (lines.drop 1) with
    | error e =>
        have he := parseRows_error_unequal parse (delimOf lines)
          (headerWidth lines) (lines.drop 1) e hp
        subst he
        simp only [load_data, hp]
        simp
    | ok acc =>
        simp only [load_data, hp]
        by_cases hemp : acc.1.isEmpty
        · rw [if_pos hemp]
          simp
        · rw [if_neg hemp]
          have hwidths := parseRows_ok_widths parse (delimOf lines)
            (headerWidth lines) (lines.drop 1) acc hp
          have hany : ¬ (acc.1.any (fun frow => frow.length ≠
              (acc.1.headD []).length) = true) := by
            simp only [List.any_eq_true, decide_eq_true_eq]
            push_neg
            intro frow hm
            have hhead : (acc.1.headD []) ∈ acc.1 := by
              cases hacc1 : acc.1 with
              | nil =>
                  exfalso
                  apply hemp
                  rw [hacc1]
                  rfl
              | cons a as => simp [hacc1]
            rw [hwidths frow hm, hwidths (acc.1.headD []) hhead]
          rw [if_neg hany]
          simp
  · intro lines hall
    have hok := parseRows_ok_of_widths parse (delimOf lines)
      (headerWidth lines) (lines.drop 1) hall
    constructor
    · simp only [load_data, hok]
      by_cases hemp : (lines.drop 1).filterMap
          (parsedRow parse (delimOf lines)) = []
      · rw [if_pos (by simp only [hemp, List.map_nil, List.isEmpty_nil])]
        exact Iff.intro (fun _ => hemp) (fun _ => rfl)
      · rw [if_neg (by
          intro hiso
          exact hemp (List.map_eq_nil_iff.mp (List.isEmpty_iff.mp hiso)))]
        constructor
        · intro hcontra
          revert hcontra
          split_ifs <;> simp
        · intro h2
          exact absurd h2 hemp
    · intro hne
      simp only [load_data, hok]
      rw [if_neg (by
        intro hiso
        exact hne (List.map_eq_nil_iff.mp (List.isEmpty_iff.mp hiso)))]
      have hwidths := parseRows_ok_widths parse (delimOf lines)
        (headerWidth lines) (lines.drop 1) _ hok
      have hany : ¬ ((((lines.drop 1).filterMap
          (parsedRow parse (delimOf lines))).map Prod.fst).any
            (fun frow => frow.length ≠
              ((((lines.drop 1).filterMap
                (parsedRow parse (delimOf lines))).map
                  Prod.fst).headD []).length) = true) := by
        simp only [List.any_eq_true, decide_eq_true_eq]
        push_neg
        intro frow hm
        have hhead : ((((lines.drop 1).filterMap
            (parsedRow parse (delimOf lines))).map Prod.fst).headD []) ∈
              (((lines.drop 1).filterMap
                (parsedRow parse (delimOf lines))).map Prod.fst) := by
          cases hacc1 : (((lines.drop 1).filterMap
              (parsedRow parse (delimOf lines))).map Prod.fst) with
          | nil =>
              rw [List.map_eq_nil_iff] at hacc1
              exact absurd hacc1 hne
          | cons a as => simp [hacc1]
        rw [hwidths frow hm, hwidths _ hhead]
      rw [if_neg hany]

/-- C5 counterexample: a file mixing a valid row with a malformed row
(`"1,x,y"`) that contains an unparseable field but also has a field
count differing from the header's: instead of silently dropping the
malformed row and returning the valid rows, the program aborts the
whole load with the csv crate's `UnequalLengths` error. -/
theorem claim_c5_counterexample :
    (∃ s ∈ splitRecord ',' "1,x,y",
      (fun s2 => if s2 = "1" then some (1 : ℕ) else none) (trimF s) =
        none) ∧
    parsedRow (fun s2 => if s2 = "1" then some (1 : ℕ) else none) ','
      "1,1" = some ([1], 1) ∧
    load_data (fun s2 => if s2 = "1" then some (1 : ℕ) else none)
      (some ["h,h", "1,1", "1,x,y"]) = .error .unequalLengths ∧
    (Except.error LoadError.unequalLengths :
      Except LoadError (List (List ℕ) × List ℕ)) ≠ .ok ([[1]], [1]) := by
  refine ⟨⟨"x", by decide, by decide⟩, by decide, rfl, ?_⟩
  intro hcontra
  exact Except.noConfusion hcontra

/-- C5 (amended): a data row with a field that fails to parse (after
trimming) yields no parsed record; among files whose data records all
have the header's field count, such rows are silently dropped and the
record loop returns exactly the rows on which parsing succeeds, in their
original order (the loop is a pure function, hence deterministic);
however a row whose field count differs from the header's instead
aborts the whole load with the csv crate's `UnequalLengths` error. -/
theorem claim_c5_amended {α : Type} (parse : String → Option α)
    (delim : Char) (w : ℕ) (lines : List String) :
    (∀ line : String,
      (∃ s ∈ splitRecord delim line, parse (trimF s) = none) →
        parsedRow parse delim line = none) ∧
    ((∀ line ∈ lines, (splitRecord delim line).length = w) →
      parseRows parse delim w lines =
        .ok ((lines.filterMap (parsedRow parse delim)).map Prod.fst,
             (lines.filterMap (parsedRow parse delim)).map Prod.snd)) ∧
    ((∃ line ∈ lines, (splitRecord delim line).length ≠ w) →
      parseRows parse delim w lines = .error .unequalLengths) := by
  refine ⟨?_, parseRows_ok_of_widths parse delim w lines,
    parseRows_unequal_of_bad parse delim w lines⟩
  intro line hs
  obtain ⟨s, hmem, hnone⟩ := hs
  unfold parsedRow
  rw [collectParsed_none_of_mem parse (splitRecord delim line) s hmem
    hnone]

/- Frontend shared-state claims. -/

/-- C9 counterexample: the worker-side operation `training_completed`
does not leave the stop-request flag unchanged — on a state with a
pending stop request, marking completion rewrites `should_stop` from
`true` to `false`. -/
theorem claim_c9_counterexample :
    ({ TrainingData.new with should_stop := true } :
        TrainingData).should_stop = true ∧
    (training_completed { TrainingData.new with should_stop := true }
        50).should_stop = false :=
  ⟨rfl, rfl⟩

/-- C9 (amended): among the worker-side operations on the shared run
state, `update_progress` leaves the stop-request flag unchanged, but
`training_completed` writes it — it unconditionally clears
`should_stop` to `false` when marking completion. -/
theorem claim_c9_amended :
    (∀ (d : TrainingData) (epoch : ℕ) (loss accuracy : ℝ),
      (update_progress d epoch loss accuracy).should_stop =
        d.should_stop) ∧
    (∀ (d : TrainingData) (accuracy : ℝ),
      (training_completed d accuracy).should_stop = false) :=
  ⟨fun _ _ _ _ => rfl, fun _ _ => rfl⟩

/-- C10: whenever `update_progress` receives an accuracy value ≤ 0 (the
`-1` sentinel, but also a genuine 0 % accuracy), the stored and reported
accuracy is the loss-derived estimate `estimate_accuracy loss =
max ((1 - min (loss / 0.7) 1) * 100) 0`, which is always nonnegative and
is at most 100 for every nonnegative loss (as produced by
`binary_cross_entropy`); the passed accuracy value itself is never
stored. -/
theorem claim_c10 (d : TrainingData) (epoch : ℕ) (loss accuracy : ℝ)
    (hacc : accuracy ≤ 0) :
    (update_progress d epoch loss accuracy).accuracy =
      estimate_accuracy loss ∧
    (update_progress d epoch loss accuracy).accuracies =
      d.accuracies ++ [estimate_accuracy loss] ∧
    0 ≤ estimate_accuracy loss ∧
    (0 ≤ loss → estimate_accuracy loss ≤ 100) := by
  have hnot : ¬ (accuracy > 0) := not_lt.mpr hacc
  refine ⟨?_, ?_, ?_, ?_⟩
  · simp [update_progress, hnot]
  · simp [update_progress, hnot]
  · simp only [estimate_accuracy]
    exact le_max_right _ _
  · intro hl
    simp only [estimate_accuracy]
    have hmin : 0 ≤ min (loss / (0.7 : ℝ)) 1 :=
      le_min (by positivity) (by norm_num)
    exact max_le (by nlinarith) (by norm_num)

/-- C10 witness: the sentinel call at an explicit input. -/
theorem claim_c10_witness :
    ((-1 : ℝ) ≤ 0 ∧ (0 : ℝ) ≤ 0.35) ∧
    ((update_progress TrainingData.new 5 0.35 (-1)).accuracy =
        estimate_accuracy 0.35 ∧
      (update_progress TrainingData.new 5 0.35 (-1)).accuracies =
        TrainingData.new.accuracies ++ [estimate_accuracy 0.35] ∧
      0 ≤ estimate_accuracy (0.35 : ℝ) ∧
      ((0 : ℝ) ≤ 0.35 → estimate_accuracy (0.35 : ℝ) ≤ 100)) :=
  ⟨⟨by norm_num, by norm_num⟩,
    claim_c10 TrainingData.new 5 0.35 (-1) (by norm_num)⟩

/- Loss-function claim. -/

theorem bce_term_bounds (y lp l1p : ℝ) (hy0 : 0 ≤ y) (hy1 : y ≤ 1)
    (hlp0 : lp ≤ 0) (hlpL : Real.log 1e-7 ≤ lp)
    (hl1p0 : l1p ≤ 0) (hl1pL : Real.log 1e-7 ≤ l1p) :
    Real.log 1e-7 ≤ y * lp + (1 - y) * l1p ∧
      y * lp + (1 - y) * l1p ≤ 0 := by
  constructor
  · have h1 := mul_le_mul_of_nonneg_left hlpL hy0
    have h2 := mul_le_mul_of_nonneg_left hl1pL
      (by linarith : (0 : ℝ) ≤ 1 - y)
    nlinarith [h1, h2]
  · have h1 : y * lp ≤ 0 := mul_nonpos_iff.mpr (Or.inl ⟨hy0, hlp0⟩)
    have h2 : (1 - y) * l1p ≤ 0 :=
      mul_nonpos_iff.mpr (Or.inl ⟨by linarith, hl1p0⟩)
    linarith

/-- C6: `binary_cross_entropy` clips every prediction into
`[1e-7, 1 - 1e-7]` before the logarithms are taken, and the resulting
loss for labels in `[0, 1]` is a well-defined real number with
`0 ≤ loss ≤ -log 1e-7` — the real-number rendering of "finite, no
NaN/Inf" — for arbitrary prediction values, in particular anywhere in
`[0, 1]` including exactly 0 and exactly 1. -/
theorem claim_c6 {n m : ℕ} (hn : 0 < n) (hm : 0 < m)
    (y_pred y_true : Fin n → Fin m → ℝ)
    (hy : ∀ i j, 0 ≤ y_true i j ∧ y_true i j ≤ 1) :
    (∀ v : ℝ, (1e-7 : ℝ) ≤ clip v ∧ clip v ≤ 1 - 1e-7) ∧
    0 ≤ binary_cross_entropy y_pred y_true ∧
    binary_cross_entropy y_pred y_true ≤ -Real.log 1e-7 := by
  have hclip : ∀ v : ℝ, (1e-7 : ℝ) ≤ clip v ∧ clip v ≤ 1 - 1e-7 := by
    intro v
    unfold clip
    exact ⟨le_min (le_max_right _ _) (by norm_num), min_le_right _ _⟩
  have hterm : ∀ (i : Fin n) (j : Fin m),
      Real.log 1e-7 ≤ y_true i j * Real.log (clip (y_pred i j)) +
        (1 - y_true i j) * Real.log (1 - clip (y_pred i j)) ∧
      y_true i j * Real.log (clip (y_pred i j)) +
        (1 - y_true i j) * Real.log (1 - clip (y_pred i j)) ≤ 0 := by
    intro i j
    obtain ⟨hp1, hp2⟩ := hclip (y_pred i j)
    have h1p1 : (1e-7 : ℝ) ≤ 1 - clip (y_pred i j) := by linarith
    exact bce_term_bounds _ _ _ (hy i j).1 (hy i j).2
      (Real.log_nonpos (by linarith) (by linarith))
      (Real.log_le_log (by norm_num) hp1)
      (Real.log_nonpos (by linarith) (by linarith))
      (Real.log_le_log (by norm_num) h1p1)
  have hnm : (0 : ℝ) < (n : ℝ) * (m : ℝ) := by
    have hn2 : (0 : ℝ) < (n : ℝ) := by exact_mod_cast hn
    have hm2 : (0 : ℝ) < (m : ℝ) := by exact_mod_cast hm
    positivity
  have hS_le : (∑ i, ∑ j, (y_true i j * Real.log (clip (y_pred i j)) +
      (1 - y_true i j) * Real.log (1 - clip (y_pred i j)))) ≤ 0 :=
    Finset.sum_nonpos fun i _ =>
      Finset.sum_nonpos fun j _ => (hterm i j).2
  have hS_ge : (n : ℝ) * (m : ℝ) * Real.log 1e-7 ≤
      ∑ i, ∑ j, (y_true i j * Real.log (clip (y_pred i j)) +
        (1 - y_true i j) * Real.log (1 - clip (y_pred i j))) := by
    have hinner : ∀ i : Fin n, (m : ℝ) * Real.log 1e-7 ≤
        ∑ j, (y_true i j * Real.log (clip (y_pred i j)) +
          (1 - y_true i j) * Real.log (1 - clip (y_pred i j))) := by
      intro i
      calc (m : ℝ) * Real.log 1e-7
          = ∑ _j : Fin m, Real.log 1e-7 := by
            rw [Finset.sum_const, Finset.card_univ, Fintype.card_fin,
              nsmul_eq_mul]
        _ ≤ _ := Finset.sum_le_sum fun j _ => (hterm i j).1
    calc (n : ℝ) * (m : ℝ) * Real.log 1e-7
        = ∑ _i : Fin n, (m : ℝ) * Real.log 1e-7 := by
          rw [Finset.sum_const, Finset.card_univ, Fintype.card_fin,
            nsmul_eq_mul]
          ring
      _ ≤ _ := Finset.sum_le_sum fun i _ => hinner i
  unfold binary_cross_entropy
  constructor
  · exact hclip
  constructor
  · have hdiv : (∑ i, ∑ j, (y_true i j * Real.log (clip (y_pred i j)) +
        (1 - y_true i j) * Real.log (1 - clip (y_pred i j)))) /
          ((n : ℝ) * (m : ℝ)) ≤ 0 :=
      div_nonpos_iff.mpr (Or.inr ⟨hS_le, hnm.le⟩)
    linarith
  · have hdiv : Real.log 1e-7 ≤
        (∑ i, ∑ j, (y_true i j * Real.log (clip (y_pred i j)) +
          (1 - y_true i j) * Real.log (1 - clip (y_pred i j)))) /
            ((n : ℝ) * (m : ℝ)) := by
      rw [le_div_iff₀ hnm]
      calc Real.log 1e-7 * ((n : ℝ) * (m : ℝ))
          = (n : ℝ) * (m : ℝ) * Real.log 1e-7 := by ring
        _ ≤ _ := hS_ge
    linarith

/-- C6 witness: a 1 × 1 instance with prediction exactly 0 and label 1. -/
theorem claim_c6_witness :
    ((0 : ℕ) < 1 ∧
      (∀ i j : Fin 1, 0 ≤ (fun (_ : Fin 1) (_ : Fin 1) => (1 : ℝ)) i j ∧
        (fun (_ : Fin 1) (_ : Fin 1) => (1 : ℝ)) i j ≤ 1)) ∧
    ((∀ v : ℝ, (1e-7 : ℝ) ≤ clip v ∧ clip v ≤ 1 - 1e-7) ∧
      0 ≤ binary_cross_entropy (fun (_ : Fin 1) (_ : Fin 1) => (0 : ℝ))
        (fun _ _ => (1 : ℝ)) ∧
      binary_cross_entropy (fun (_ : Fin 1) (_ : Fin 1) => (0 : ℝ))
        (fun _ _ => (1 : ℝ)) ≤ -Real.log 1e-7) :=
  ⟨⟨Nat.one_pos, fun _ _ => ⟨by norm_num, le_refl 1⟩⟩,
    claim_c6 Nat.one_pos Nat.one_pos _ _
      (fun _ _ => ⟨by norm_num, le_refl 1⟩)⟩

/- Training-engine machinery. -/

theorem trainLoop_zero {n f h : ℕ} (c : RunCtx n f h)
    (st : EngineState n f h) (d : TrainingData) (evs : List Event) :
    trainLoop c 0 st d evs =
      { data := training_completed d (accuracyOf st.final_pred c.y_true)
        events := evs ++ [Event.plot st.losses c.epochs,
          Event.completedCb (accuracyOf st.final_pred c.y_true)]
        st := st } := rfl

theorem trainLoop_step {n f h : ℕ} (c : RunCtx n f h) (r : ℕ)
    (st : EngineState n f h) (d : TrainingData) (evs : List Event)
    (hs : c.stopReq (c.epochs - (r + 1)) = false) :
    trainLoop c (r + 1) st d evs =
      trainLoop c r (epochStep c st)
        (update_progress { d with should_stop := c.stopReq (c.epochs - (r + 1)) }
          (c.epochs - (r + 1)) (lossOf c st) (accArg c (c.epochs - (r + 1)) st))
        (evs ++ [Event.progress (c.epochs - (r + 1)) (lossOf c st)
          (accArg c (c.epochs - (r + 1)) st)]) := by
  simp only [trainLoop]
  rw [if_neg (by simp [hs])]

theorem trainLoop_stop_pos {n f h : ℕ} (c : RunCtx n f h) (r : ℕ)
    (st : EngineState n f h) (d : TrainingData) (evs : List Event)
    (e : ℕ) (he : c.epochs - (r + 1) = e)
    (hs : c.stopReq e = true) (hpos : 0 < e) :
    trainLoop c (r + 1) st d evs =
      { data := training_completed { d with should_stop := true }
          (accOf c st)
        events := if st.losses.isEmpty
          then evs ++ [Event.completedCb (accOf c st)]
          else (evs ++ [Event.completedCb (accOf c st)]) ++
            [Event.plot st.losses c.epochs]
        st := st } := by
  subst he
  simp only [trainLoop]
  rw [if_pos (by simp [hs]), if_pos hpos]
  simp only [hs]
  rfl

theorem trainLoop_stop_zero {n f h : ℕ} (c : RunCtx n f h) (r : ℕ)
    (st : EngineState n f h) (d : TrainingData) (evs : List Event)
    (he : c.epochs - (r + 1) = 0) (hs : c.stopReq 0 = true) :
    trainLoop c (r + 1) st d evs =
      { data := { d with should_stop := true,
                          training_in_progress := false,
                          completed := false }
        events := evs
        st := st } := by
  simp only [trainLoop, he]
  rw [if_pos (by simp [hs])]
  rw [if_neg (by omega)]
  simp only [hs]

theorem epochStep_losses {n f h : ℕ} (c : RunCtx n f h)
    (st : EngineState n f h) :
    (epochStep c st).losses = st.losses ++ [lossOf c st] := rfl

theorem iterate_losses {n f h : ℕ} (c : RunCtx n f h) :
    ∀ (k : ℕ) (st : EngineState n f h),
      ((epochStep c)^[k] st).losses.length = st.losses.length + k := by
  intro k
  induction k with
  | zero => intro st; simp
  | succ k ih =>
      intro st
      rw [Function.iterate_succ_apply, ih (epochStep c st),
        epochStep_losses]
      simp
      omega

theorem trainLoop_advance {n f h : ℕ} (c : RunCtx n f h) :
    ∀ (j r : ℕ) (st : EngineState n f h) (d : TrainingData)
      (evs : List Event), j ≤ r → r ≤ c.epochs →
      (∀ i, i < j → c.stopReq (c.epochs - r + i) = false) →
      trainLoop c r st d evs =
        trainLoop c (r - j) ((epochStep c)^[j] st)
          (dataSteps c (c.epochs - r) j st d)
          (evs ++ progressEvs c (c.epochs - r) j st) := by
  intro j
  induction j with
  | zero =>
      intro r st d evs _ _ _
      simp [dataSteps, progressEvs]
  | succ j ih =>
      intro r st d evs hjr hre hstop
      obtain ⟨r0, rfl⟩ : ∃ r0, r = r0 + 1 := ⟨r - 1, by omega⟩
      have hs0 : c.stopReq (c.epochs - (r0 + 1)) = false := by
        simpa using hstop 0 (Nat.succ_pos j)
      have hb : c.epochs - r0 = c.epochs - (r0 + 1) + 1 := by omega
      have hstop2 : ∀ i, i < j → c.stopReq (c.epochs - r0 + i) = false := by
        intro i hij
        have heq : c.epochs - r0 + i = c.epochs - (r0 + 1) + (i + 1) := by
          omega
        rw [heq]
        exact hstop (i + 1) (by omega)
      rw [trainLoop_step c r0 st d evs hs0,
        ih r0 (epochStep c st) _ _ (by omega) (by omega) hstop2]
      simp only [dataSteps, progressEvs, Function.iterate_succ_apply]
      rw [show r0 + 1 - (j + 1) = r0 - j from by omega, hb]
      simp [List.append_assoc]

theorem run_complete {n f h : ℕ} (c : RunCtx n f h)
    (w1 : Fin f → Fin h → ℝ) (w2 : Fin h → Fin 1 → ℝ) (d : TrainingData)
    (hstop : ∀ e, e < c.epochs → c.stopReq e = false) :
    train_neural_network c w1 w2 d =
      { data := training_completed
          (dataSteps c 0 c.epochs (initState w1 w2) d)
          (accuracyOf ((epochStep c)^[c.epochs]
            (initState w1 w2)).final_pred c.y_true)
        events := progressEvs c 0 c.epochs (initState w1 w2) ++
          [Event.plot ((epochStep c)^[c.epochs]
              (initState w1 w2)).losses c.epochs,
            Event.completedCb (accuracyOf ((epochStep c)^[c.epochs]
              (initState w1 w2)).final_pred c.y_true)]
        st := (epochStep c)^[c.epochs] (initState w1 w2) } := by
  unfold train_neural_network
  rw [trainLoop_advance c c.epochs c.epochs (initState w1 w2) d []
    le_rfl le_rfl (by intro i hi; simpa using hstop i hi)]
  rw [Nat.sub_self]
  rw [trainLoop_zero]
  simp

theorem run_stopped_pos {n f h : ℕ} (c : RunCtx n f h)
    (w1 : Fin f → Fin h → ℝ) (w2 : Fin h → Fin 1 → ℝ) (d : TrainingData)
    (k : ℕ) (hk : k < c.epochs) (hk0 : 0 < k)
    (hs : c.stopReq k = true) (hprev : ∀ i, i < k → c.stopReq i = false) :
    train_neural_network c w1 w2 d =
      { data := training_completed
          { dataSteps c 0 k (initState w1 w2) d with should_stop := true }
          (accOf c ((epochStep c)^[k] (initState w1 w2)))
        events := (progressEvs c 0 k (initState w1 w2) ++
            [Event.completedCb
              (accOf c ((epochStep c)^[k] (initState w1 w2)))]) ++
          [Event.plot ((epochStep c)^[k] (initState w1 w2)).losses
            c.epochs]
        st := (epochStep c)^[k] (initState w1 w2) } := by
  unfold train_neural_network
  rw [trainLoop_advance c k c.epochs (initState w1 w2) d []
    (by omega) le_rfl
    (by intro i hi; simpa [Nat.sub_sub_self hk.le] using hprev i hi)]
  obtain ⟨m, hm⟩ : ∃ m, c.epochs - k = m + 1 := ⟨c.epochs - k - 1, by omega⟩
  rw [hm, trainLoop_stop_pos c m _ _ _ k (by omega) hs hk0]
  have hne : ((epochStep c)^[k] (initState w1 w2)).losses.isEmpty = false := by
    have hlen : ((epochStep c)^[k] (initState w1 w2)).losses.length = k := by
      simpa [initState] using iterate_losses c k (initState w1 w2)
    cases hlosses : ((epochStep c)^[k] (initState w1 w2)).losses with
    | nil => rw [hlosses] at hlen; simp at hlen; omega
    | cons a as => simp
  rw [hne]
  simp

theorem run_stopped_zero {n f h : ℕ} (c : RunCtx n f h)
    (w1 : Fin f → Fin h → ℝ) (w2 : Fin h → Fin 1 → ℝ) (d : TrainingData)
    (he : 0 < c.epochs) (hs : c.stopReq 0 = true) :
    train_neural_network c w1 w2 d =
      { data := { d with should_stop := true,
                          training_in_progress := false,
                          completed := false }
        events := []
        st := initState w1 w2 } := by
  unfold train_neural_network
  obtain ⟨m, hm⟩ : ∃ m, c.epochs = m + 1 := ⟨c.epochs - 1, by omega⟩
  rw [hm, trainLoop_stop_zero c m _ _ _ (by omega) hs]

theorem progressEvs_filterMap_cb {n f h : ℕ} (c : RunCtx n f h) :
    ∀ (j b : ℕ) (st : EngineState n f h),
      (progressEvs c b j st).filterMap cbAcc = [] := by
  intro j
  induction j with
  | zero => intro b st; simp [progressEvs]
  | succ j ih =>
      intro b st
      simp [progressEvs, cbAcc, ih (b + 1) (epochStep c st)]

theorem progressEvs_filterMap_progAcc {n f h : ℕ} (c : RunCtx n f h)
    (e : ℕ) :
    ∀ (j b : ℕ) (st : EngineState n f h),
      (progressEvs c b j st).filterMap (progAcc e) =
        if b ≤ e ∧ e < b + j
        then [accArg c e ((epochStep c)^[e - b] st)] else [] := by
  intro j
  induction j with
  | zero =>
      intro b st
      rw [if_neg (by omega)]
      simp [progressEvs]
  | succ j ih =>
      intro b st
      simp only [progressEvs, List.filterMap_cons]
      by_cases hbe : b = e
      · subst hbe
        have hhead : progAcc b (Event.progress b (lossOf c st)
            (accArg c b st)) = some (accArg c b st) := by
          simp [progAcc]
        rw [hhead, ih (b + 1) (epochStep c st),
          if_neg (by omega), if_pos (by omega)]
        simp
      · have hhead : progAcc e (Event.progress b (lossOf c st)
            (accArg c b st)) = none := by
          simp [progAcc, hbe]
        rw [hhead, ih (b + 1) (epochStep c st)]
        by_cases hin : b + 1 ≤ e ∧ e < b + 1 + j
        · rw [if_pos hin, if_pos (by omega)]
          obtain ⟨q, hq⟩ : ∃ q, e - b = q + 1 := ⟨e - b - 1, by omega⟩
          rw [hq, show e - (b + 1) = q from by omega,
            Function.iterate_succ_apply]
        · rw [if_neg hin, if_neg (by omega)]

theorem trainLoop_events_shape {n f h : ℕ} (c : RunCtx n f h) :
    ∀ (r : ℕ) (st : EngineState n f h) (d : TrainingData)
      (evs : List Event),
      ∃ rest, (trainLoop c r st d evs).events = evs ++ rest ∧
        ∀ e l a, Event.progress e l a ∈ rest → c.epochs - r ≤ e := by
  intro r
  induction r with
  | zero =>
      intro st d evs
      refine ⟨_, rfl, ?_⟩
      intro e l a hmem
      simp at hmem
  | succ r ih =>
      intro st d evs
      by_cases hs : c.stopReq (c.epochs - (r + 1)) = true
      · by_cases hpos : 0 < c.epochs - (r + 1)
        · rw [trainLoop_stop_pos c r st d evs (c.epochs - (r + 1)) rfl hs
            hpos]
          by_cases hemp : st.losses.isEmpty
          · refine ⟨[Event.completedCb (accOf c st)], by simp [hemp], ?_⟩
            intro e l a hmem
            simp at hmem
          · refine ⟨[Event.completedCb (accOf c st),
              Event.plot st.losses c.epochs],
              by simp [hemp, List.append_assoc], ?_⟩
            intro e l a hmem
            simp at hmem
        · have hz : c.epochs - (r + 1) = 0 := by omega
          rw [trainLoop_stop_zero c r st d evs hz (hz ▸ hs)]
          exact ⟨[], by simp, by intro e l a hmem; simp at hmem⟩
      · have hs2 : c.stopReq (c.epochs - (r + 1)) = false := by
          simpa using hs
        rw [trainLoop_step c r st d evs hs2]
        obtain ⟨rest, hrest, hbound⟩ := ih (epochStep c st)
          (update_progress { d with
              should_stop := c.stopReq (c.epochs - (r + 1)) }
            (c.epochs - (r + 1)) (lossOf c st)
            (accArg c (c.epochs - (r + 1)) st))
          (evs ++ [Event.progress (c.epochs - (r + 1)) (lossOf c st)
            (accArg c (c.epochs - (r + 1)) st)])
        refine ⟨Event.progress (c.epochs - (r + 1)) (lossOf c st)
          (accArg c (c.epochs - (r + 1)) st) :: rest,
          by rw [hrest]; simp, ?_⟩
        intro e l a hmem
        rcases List.mem_cons.mp hmem with hhd | htl
        · have : e = c.epochs - (r + 1) := by
            cases hhd; rfl
          omega
        · have := hbound e l a htl
          omega

/- Training-run claims. -/

/-- C1: the loss history length equals the number of epochs actually
executed — `epochs` when no stop request is observed (normal
completion), and `k < epochs` when the first stop request is observed at
the top of epoch `k`. -/
theorem claim_c1 {n f h : ℕ} (c : RunCtx n f h)
    (w1 : Fin f → Fin h → ℝ) (w2 : Fin h → Fin 1 → ℝ)
    (d : TrainingData) :
    ((∀ e, e < c.epochs → c.stopReq e = false) →
      (train_neural_network c w1 w2 d).st.losses.length = c.epochs) ∧
    (∀ k, k < c.epochs → c.stopReq k = true →
      (∀ i, i < k → c.stopReq i = false) →
      (train_neural_network c w1 w2 d).st.losses.length = k ∧
        k < c.epochs) := by
  constructor
  · intro hstop
    rw [run_complete c w1 w2 d hstop]
    simpa [initState] using iterate_losses c c.epochs (initState w1 w2)
  · intro k hk hs hprev
    refine ⟨?_, hk⟩
    by_cases hk0 : 0 < k
    · rw [run_stopped_pos c w1 w2 d k hk hk0 hs hprev]
      simpa [initState] using iterate_losses c k (initState w1 w2)
    · have hkz : k = 0 := by omega
      subst hkz
      rw [run_stopped_zero c w1 w2 d hk hs]
      simp [initState]

/-- C1 witness: a 2-epoch run with no stop request executes 2 epochs. -/
theorem claim_c1_witness :
    (∀ e, e < (2 : ℕ) →
      (⟨2, 1, fun _ _ => 0, fun _ _ => 0, fun _ => false⟩ :
        RunCtx 1 1 1).stopReq e = false) ∧
    (train_neural_network
      (⟨2, 1, fun _ _ => 0, fun _ _ => 0, fun _ => false⟩ : RunCtx 1 1 1)
      (fun _ _ => 0) (fun _ _ => 0)
      TrainingData.new).st.losses.length = 2 :=
  ⟨fun _ _ => rfl,
    (claim_c1 (⟨2, 1, fun _ _ => 0, fun _ _ => 0, fun _ => false⟩ :
        RunCtx 1 1 1) (fun _ _ => 0) (fun _ _ => 0)
      TrainingData.new).1 (fun _ _ => rfl)⟩

/-- C2: when the first stop request is observed at the top of epoch
`k ≥ 1`, the run fires `training_completed` exactly once, with the
accuracy computed by the forward pass performed at that point from the
epoch-`k` parameters (the weights after `k` gradient updates) — the most
recent forward pass at callback time — and it still hands the loss
series collected so far (length `k`) to the artifact writer
(`plot_loss`); the shared state is marked completed with that
accuracy. -/
theorem claim_c2 {n f h : ℕ} (c : RunCtx n f h)
    (w1 : Fin f → Fin h → ℝ) (w2 : Fin h → Fin 1 → ℝ)
    (d : TrainingData) (k : ℕ) (hk1 : 1 ≤ k) (hk : k < c.epochs)
    (hs : c.stopReq k = true)
    (hprev : ∀ i, i < k → c.stopReq i = false) :
    ((train_neural_network c w1 w2 d).events.filterMap cbAcc =
      [accOf c ((epochStep c)^[k] (initState w1 w2))]) ∧
    (train_neural_network c w1 w2 d).st.losses.length = k ∧
    Event.plot (train_neural_network c w1 w2 d).st.losses c.epochs ∈
      (train_neural_network c w1 w2 d).events ∧
    (train_neural_network c w1 w2 d).data.completed = true ∧
    (train_neural_network c w1 w2 d).data.accuracy =
      accOf c ((epochStep c)^[k] (initState w1 w2)) := by
  rw [run_stopped_pos c w1 w2 d k hk (by omega) hs hprev]
  refine ⟨?_, ?_, ?_, rfl, rfl⟩
  · simp [List.filterMap_append, progressEvs_filterMap_cb, cbAcc]
  · simpa [initState] using iterate_losses c k (initState w1 w2)
  · simp

/-- C2 witness: stop observed at epoch 1 of a 3-epoch run. -/
theorem claim_c2_witness :
    ((1 : ℕ) ≤ 1 ∧ (1 : ℕ) < 3 ∧
      (⟨3, 1, fun _ _ => 0, fun _ _ => 0, fun e => decide (e = 1)⟩ :
        RunCtx 1 1 1).stopReq 1 = true ∧
      (∀ i, i < 1 →
        (⟨3, 1, fun _ _ => 0, fun _ _ => 0, fun e => decide (e = 1)⟩ :
          RunCtx 1 1 1).stopReq i = false)) ∧
    (((train_neural_network
        (⟨3, 1, fun _ _ => 0, fun _ _ => 0, fun e => decide (e = 1)⟩ :
          RunCtx 1 1 1) (fun _ _ => 0) (fun _ _ => 0)
        TrainingData.new).events.filterMap cbAcc =
      [accOf (⟨3, 1, fun _ _ => 0, fun _ _ => 0, fun e => decide (e = 1)⟩ :
          RunCtx 1 1 1)
        ((epochStep (⟨3, 1, fun _ _ => 0, fun _ _ => 0,
            fun e => decide (e = 1)⟩ : RunCtx 1 1 1))^[1]
          (initState (fun _ _ => 0) (fun _ _ => 0)))]) ∧
      (train_neural_network
        (⟨3, 1, fun _ _ => 0, fun _ _ => 0, fun e => decide (e = 1)⟩ :
          RunCtx 1 1 1) (fun _ _ => 0) (fun _ _ => 0)
        TrainingData.new).st.losses.length = 1 ∧
      Event.plot (train_neural_network
          (⟨3, 1, fun _ _ => 0, fun _ _ => 0, fun e => decide (e = 1)⟩ :
            RunCtx 1 1 1) (fun _ _ => 0) (fun _ _ => 0)
          TrainingData.new).st.losses
        (⟨3, 1, fun _ _ => 0, fun _ _ => 0, fun e => decide (e = 1)⟩ :
          RunCtx 1 1 1).epochs ∈
        (train_neural_network
          (⟨3, 1, fun _ _ => 0, fun _ _ => 0, fun e => decide (e = 1)⟩ :
            RunCtx 1 1 1) (fun _ _ => 0) (fun _ _ => 0)
          TrainingData.new).events ∧
      (train_neural_network
        (⟨3, 1, fun _ _ => 0, fun _ _ => 0, fun e => decide (e = 1)⟩ :
          RunCtx 1 1 1) (fun _ _ => 0) (fun _ _ => 0)
        TrainingData.new).data.completed = true ∧
      (train_neural_network
        (⟨3, 1, fun _ _ => 0, fun _ _ => 0, fun e => decide (e = 1)⟩ :
          RunCtx 1 1 1) (fun _ _ => 0) (fun _ _ => 0)
        TrainingData.new).data.accuracy =
        accOf (⟨3, 1, fun _ _ => 0, fun _ _ => 0,
            fun e => decide (e = 1)⟩ : RunCtx 1 1 1)
          ((epochStep (⟨3, 1, fun _ _ => 0, fun _ _ => 0,
              fun e => decide (e = 1)⟩ : RunCtx 1 1 1))^[1]
            (initState (fun _ _ => 0) (fun _ _ => 0)))) :=
  ⟨⟨le_refl 1, by omega, by decide, by decide⟩,
    claim_c2 (⟨3, 1, fun _ _ => 0, fun _ _ => 0, fun e => decide (e = 1)⟩ :
        RunCtx 1 1 1) (fun _ _ => 0) (fun _ _ => 0) TrainingData.new 1
      (le_refl 1) (by decide) (by decide) (by decide)⟩

/-- C3: when the stop request is already observed at the top of epoch 0,
the run ends not completed and not in progress, the loss history is
empty, and neither the completion callback nor the artifact writer is
invoked (no events at all are emitted). -/
theorem claim_c3 {n f h : ℕ} (c : RunCtx n f h)
    (w1 : Fin f → Fin h → ℝ) (w2 : Fin h → Fin 1 → ℝ)
    (d : TrainingData) (he : 0 < c.epochs) (hs : c.stopReq 0 = true)
    (hd : d.losses = []) :
    (train_neural_network c w1 w2 d).data.completed = false ∧
    (train_neural_network c w1 w2 d).data.training_in_progress = false ∧
    (train_neural_network c w1 w2 d).st.losses = [] ∧
    (train_neural_network c w1 w2 d).data.losses = [] ∧
    (train_neural_network c w1 w2 d).events = [] := by
  rw [run_stopped_zero c w1 w2 d he hs]
  exact ⟨rfl, rfl, rfl, hd, rfl⟩

/-- C3 witness: the spec scenario, 1000 epochs with an immediate stop
request, starting from a freshly reset shared state. -/
theorem claim_c3_witness :
    ((0 : ℕ) < 1000 ∧
      (⟨1000, 0.01, fun _ _ => 0, fun _ _ => 0, fun _ => true⟩ :
        RunCtx 1 1 1).stopReq 0 = true ∧
      TrainingData.new.losses = []) ∧
    ((train_neural_network
        (⟨1000, 0.01, fun _ _ => 0, fun _ _ => 0, fun _ => true⟩ :
          RunCtx 1 1 1) (fun _ _ => 0) (fun _ _ => 0)
        TrainingData.new).data.completed = false ∧
      (train_neural_network
        (⟨1000, 0.01, fun _ _ => 0, fun _ _ => 0, fun _ => true⟩ :
          RunCtx 1 1 1) (fun _ _ => 0) (fun _ _ => 0)
        TrainingData.new).data.training_in_progress = false ∧
      (train_neural_network
        (⟨1000, 0.01, fun _ _ => 0, fun _ _ => 0, fun _ => true⟩ :
          RunCtx 1 1 1) (fun _ _ => 0) (fun _ _ => 0)
        TrainingData.new).st.losses = [] ∧
      (train_neural_network
        (⟨1000, 0.01, fun _ _ => 0, fun _ _ => 0, fun _ => true⟩ :
          RunCtx 1 1 1) (fun _ _ => 0) (fun _ _ => 0)
        TrainingData.new).data.losses = [] ∧
      (train_neural_network
        (⟨1000, 0.01, fun _ _ => 0, fun _ _ => 0, fun _ => true⟩ :
          RunCtx 1 1 1) (fun _ _ => 0) (fun _ _ => 0)
        TrainingData.new).events = []) :=
  ⟨⟨by omega, rfl, rfl⟩,
    claim_c3 (⟨1000, 0.01, fun _ _ => 0, fun _ _ => 0, fun _ => true⟩ :
        RunCtx 1 1 1) (fun _ _ => 0) (fun _ _ => 0) TrainingData.new
      (by decide) rfl rfl⟩

/-- C7: in any epoch `e` the run executes (no stop observed up to `e`),
the single `update_progress` call for `e` carries the true accuracy of
that epoch's predictions exactly when `e` is 0, a multiple of the
reporting interval `LOG_INTERVAL = 100`, or the final epoch, and the
`-1` sentinel otherwise; and on receiving the sentinel the progress sink
stores the loss-derived estimate instead. -/
theorem claim_c7 {n f h : ℕ} (c : RunCtx n f h)
    (w1 : Fin f → Fin h → ℝ) (w2 : Fin h → Fin 1 → ℝ)
    (d : TrainingData) (e : ℕ) (he : e < c.epochs)
    (hprev : ∀ i, i ≤ e → c.stopReq i = false) :
    ((train_neural_network c w1 w2 d).events.filterMap (progAcc e) =
      [if e % LOG_INTERVAL = 0 ∨ e = c.epochs - 1
        then accOf c ((epochStep c)^[e] (initState w1 w2)) else -1]) ∧
    (∀ (d2 : TrainingData) (ep : ℕ) (l : ℝ),
      (update_progress d2 ep l (-1)).accuracy = estimate_accuracy l) := by
  constructor
  · unfold train_neural_network
    rw [trainLoop_advance c (e + 1) c.epochs (initState w1 w2) d []
      (by omega) le_rfl
      (by
        intro i hi
        rw [show c.epochs - c.epochs + i = i from by omega]
        exact hprev i (by omega))]
    obtain ⟨rest, hrest, hbound⟩ := trainLoop_events_shape c
      (c.epochs - (e + 1)) ((epochStep c)^[e + 1] (initState w1 w2))
      (dataSteps c (c.epochs - c.epochs) (e + 1) (initState w1 w2) d)
      ([] ++ progressEvs c (c.epochs - c.epochs) (e + 1)
        (initState w1 w2))
    rw [hrest, List.nil_append, List.filterMap_append,
      progressEvs_filterMap_progAcc c e (e + 1) (c.epochs - c.epochs)
        (initState w1 w2),
      if_pos (by omega)]
    have hrest_nil : rest.filterMap (progAcc e) = [] := by
      rw [List.filterMap_eq_nil_iff]
      intro ev hmem
      cases ev with
      | progress e2 l a =>
          have hge := hbound e2 l a hmem
          have : e2 ≠ e := by omega
          simp [progAcc, this]
      | completedCb a => rfl
      | plot ls eps => rfl
    rw [hrest_nil, List.append_nil,
      show c.epochs - c.epochs = 0 from by omega, Nat.sub_zero]
    simp [accArg]
  · intro d2 ep l
    have hneg : ¬((-1 : ℝ) > 0) := by norm_num
    simp [update_progress, hneg]

/-- C7 witness: epoch 0 of a 2-epoch run reports the true accuracy
(0 is both 0 mod 100 and a reporting epoch). -/
theorem claim_c7_witness :
    ((0 : ℕ) < 2 ∧
      (∀ i, i ≤ 0 →
        (⟨2, 1, fun _ _ => 0, fun _ _ => 0, fun _ => false⟩ :
          RunCtx 1 1 1).stopReq i = false)) ∧
    (((train_neural_network
        (⟨2, 1, fun _ _ => 0, fun _ _ => 0, fun _ => false⟩ :
          RunCtx 1 1 1) (fun _ _ => 0) (fun _ _ => 0)
        TrainingData.new).events.filterMap (progAcc 0) =
      [if 0 % LOG_INTERVAL = 0 ∨ 0 =
          (⟨2, 1, fun _ _ => 0, fun _ _ => 0, fun _ => false⟩ :
            RunCtx 1 1 1).epochs - 1
        then accOf (⟨2, 1, fun _ _ => 0, fun _ _ => 0, fun _ => false⟩ :
            RunCtx 1 1 1)
          ((epochStep (⟨2, 1, fun _ _ => 0, fun _ _ => 0,
              fun _ => false⟩ : RunCtx 1 1 1))^[0]
            (initState (fun _ _ => 0) (fun _ _ => 0)))
        else -1]) ∧
      (∀ (d2 : TrainingData) (ep : ℕ) (l : ℝ),
        (update_progress d2 ep l (-1)).accuracy = estimate_accuracy l)) :=
  ⟨⟨by omega, fun _ _ => rfl⟩,
    claim_c7 (⟨2, 1, fun _ _ => 0, fun _ _ => 0, fun _ => false⟩ :
        RunCtx 1 1 1) (fun _ _ => 0) (fun _ _ => 0) TrainingData.new 0
      (by decide) (fun _ _ => rfl)⟩

/-- C8 counterexample: a run can start without the shared state being
reset.  Starting from a fresh app, a first run is started and stopped
before any epoch completes (so it ends with `completed = false` and
`should_stop` still `true`); the next train click then starts a second
run (callback flag `true`) whose starting state still has
`should_stop = true` — the stop-request flag is not cleared, so the
state was not reset to defaults. -/
theorem claim_c8_counterexample :
    ((train_click (train_neural_network
        (⟨1000, 0.01, fun _ _ => 0, fun _ _ => 0, fun _ => true⟩ :
          RunCtx 1 1 1) (fun _ _ => 0) (fun _ _ => 0)
        (train_click TrainingData.new).1).data).2 = true) ∧
    ((train_click (train_neural_network
        (⟨1000, 0.01, fun _ _ => 0, fun _ _ => 0, fun _ => true⟩ :
          RunCtx 1 1 1) (fun _ _ => 0) (fun _ _ => 0)
        (train_click TrainingData.new).1).data).1.should_stop = true) := by
  rw [run_stopped_zero (⟨1000, 0.01, fun _ _ => 0, fun _ _ => 0,
      fun _ => true⟩ : RunCtx 1 1 1) (fun _ _ => 0) (fun _ _ => 0)
    (train_click TrainingData.new).1 (by decide) rfl]
  exact ⟨rfl, rfl⟩

/-- C8 (amended): the train-click handler resets the shared state to
defaults only when the previous run ended with `completed = true`
(normal completion, or early stop after at least one epoch); it always
sets in-progress, clears completed and zeroes the epoch, but after a run
that ended not-completed (stopped before any epoch) the loss/accuracy
values, both histories and — in particular — a still-pending
stop-request flag are carried over unchanged into the new run. -/
theorem claim_c8_amended (d : TrainingData)
    (hp : d.training_in_progress = false) :
    (d.completed = true → (train_click d).1 = d.reset) ∧
    (d.completed = false →
      (train_click d).1 = { d with training_in_progress := true,
                                     completed := false, epoch := 0 } ∧
      (train_click d).1.should_stop = d.should_stop ∧
      (train_click d).1.losses = d.losses ∧
      (train_click d).1.accuracies = d.accuracies ∧
      (train_click d).1.loss = d.loss ∧
      (train_click d).1.accuracy = d.accuracy) ∧
    (train_click d).2 = true := by
  unfold train_click
  rw [if_neg (by simp [hp])]
  refine ⟨?_, ?_, rfl⟩
  · intro hc
    rw [if_pos hc]
    rfl
  · intro hc
    rw [if_neg (by simp [hc])]
    exact ⟨rfl, rfl, rfl, rfl, rfl, rfl⟩

/-- C8 amended witness: the handler on a fresh (never-completed) state. -/
theorem claim_c8_amended_witness :
    (TrainingData.new.training_in_progress = false) ∧
    ((TrainingData.new.completed = true →
        (train_click TrainingData.new).1 = TrainingData.new.reset) ∧
      (TrainingData.new.completed = false →
        (train_click TrainingData.new).1 =
          { TrainingData.new with training_in_progress := true,
                                   completed := false, epoch := 0 } ∧
        (train_click TrainingData.new).1.should_stop =
          TrainingData.new.should_stop ∧
        (train_click TrainingData.new).1.losses =
          TrainingData.new.losses ∧
        (train_click TrainingData.new).1.accuracies =
          TrainingData.new.accuracies ∧
        (train_click TrainingData.new).1.loss = TrainingData.new.loss ∧
        (train_click TrainingData.new).1.accuracy =
          TrainingData.new.accuracy) ∧
      (train_click TrainingData.new).2 = true) :=
  ⟨rfl, claim_c8_amended TrainingData.new rfl⟩

end NN
